import Mathlib

/-!
Verification of the pitch-mission state machine of the EVA microphone
station (src/reference/reference_script.js).

The mission-relevant mutable fields of the EVAMicrophoneStation class are
collected in the structure `Station`.  Each JavaScript method that touches
mission state is embedded as a pure state transformer.  Timestamps
(Date.now values) are integers in milliseconds; frequencies and decibel
magnitudes are rationals.  The delayed setTimeout transition scheduled by
completeMission is modelled by a `pending` field together with the
operation `firePending` that performs the delayed callback.
-/

set_option autoImplicit false

/-- A target tone entry of the targetTones array. -/
structure TargetTone where
  note : String
  frequency : ℚ
  color : String
deriving DecidableEq

/-- The targetTones sequence from the constructor. -/
def targetTones : List TargetTone :=
  [⟨"C", 261.63, "#ff6b6b"⟩, ⟨"F#", 369.99, "#4ecdc4"⟩, ⟨"A", 440.00, "#45b7d1"⟩]

/-- this.tolerance = 40 (Hz). -/
def tolerance : ℚ := 40

/-- this.requiredHitDuration = 1500 (ms). -/
def requiredHitDuration : ℤ := 1500

/-- The callback scheduled by completeMission via setTimeout. -/
inductive PendingAdvance where
  | toEndless
  | toNext
deriving DecidableEq

/-- Mission-relevant mutable fields of the EVAMicrophoneStation instance.
`hitProgress` records the last value passed to updateHitProgress, i.e. the
hold-progress ratio currently exposed to the presentation layer. -/
structure Station where
  isRecording : Bool
  currentToneIndex : ℕ
  isHittingTarget : Bool
  hitStartTime : ℤ
  hitDuration : ℤ
  missionCompleted : Bool
  completedTones : ℕ
  endlessMode : Bool
  hitProgress : ℚ
  pending : Option PendingAdvance
deriving DecidableEq

/-- The field values set by the constructor. -/
def initStation : Station :=
  { isRecording := false
    currentToneIndex := 0
    isHittingTarget := false
    hitStartTime := 0
    hitDuration := 0
    missionCompleted := false
    completedTones := 0
    endlessMode := false
    hitProgress := 0
    pending := none }

/-- getCurrentTarget: this.targetTones[this.currentToneIndex]. -/
def getCurrentTarget (s : Station) : TargetTone :=
  targetTones.getD s.currentToneIndex ⟨"", 0, ""⟩

/-- checkTargetHit(frequency): in endless mode every tone is accepted,
otherwise the absolute distance to the current target is compared
(inclusively) with the tolerance. -/
def checkTargetHit (s : Station) (frequency : ℚ) : Bool :=
  if s.endlessMode then true
  else decide (|frequency - (getCurrentTarget s).frequency| ≤ tolerance)

/-- completeMission: guarded by missionCompleted; increments completedTones
and schedules (setTimeout, 3000 ms) either enterEndlessMode or nextMission
depending on whether all target tones are completed. -/
def completeMission (s : Station) : Station :=
  if s.missionCompleted then s
  else
    let s1 : Station :=
      { s with missionCompleted := true, completedTones := s.completedTones + 1 }
    if targetTones.length ≤ s1.completedTones then
      { s1 with pending := some PendingAdvance.toEndless }
    else
      { s1 with pending := some PendingAdvance.toNext }

/-- handleTargetHit(isHitting), with `now` standing for Date.now().
Mirrors the source: early return in endless mode; on an accepted sample
while the mission is not completed the hit window is opened or extended,
the progress ratio is pushed to updateHitProgress before the completion
check, and completeMission runs once the duration reaches the requirement;
otherwise a currently open hit window is reset. -/
def handleTargetHit (s : Station) (isHitting : Bool) (now : ℤ) : Station :=
  if s.endlessMode then s
  else if isHitting && !s.missionCompleted then
    let s1 : Station :=
      if s.isHittingTarget then s
      else { s with isHittingTarget := true, hitStartTime := now }
    let s2 : Station := { s1 with hitDuration := now - s1.hitStartTime }
    let s3 : Station := { s2 with hitProgress := (s2.hitDuration : ℚ) / (requiredHitDuration : ℚ) }
    if requiredHitDuration ≤ s3.hitDuration then completeMission s3 else s3
  else
    if s.isHittingTarget then
      { s with isHittingTarget := false, hitDuration := 0, hitProgress := 0 }
    else s

/-- detectTone, with the dominant-frequency estimate and the clock value
passed explicitly.  A non-positive estimate (the "no signal" value 0) runs
no target logic at all; in endless mode target detection is skipped. -/
def detectTone (s : Station) (now : ℤ) (dominantFrequency : ℚ) : Station :=
  if 0 < dominantFrequency then
    if s.endlessMode then s
    else handleTargetHit s (checkTargetHit s dominantFrequency) now
  else s

/-- resetMissionState (called from stopRecording): clears the hold window
and pushes progress 0 to the presentation layer. -/
def resetMissionState (s : Station) : Station :=
  { s with isHittingTarget := false, hitDuration := 0, hitStartTime := 0, hitProgress := 0 }

/-- stopRecording: stops recording; the mission state is reset only when
the mission is neither completed nor in endless mode. -/
def stopRecording (s : Station) : Station :=
  let s1 : Station := { s with isRecording := false }
  if s1.missionCompleted = false ∧ s1.endlessMode = false then resetMissionState s1 else s1

/-- startRecording (successful path): only the mission-relevant effect. -/
def startRecording (s : Station) : Station :=
  { s with isRecording := true }

/-- resetMission: clears completion and the hold window, pushes progress 0. -/
def resetMission (s : Station) : Station :=
  { s with missionCompleted := false, isHittingTarget := false,
           hitDuration := 0, hitStartTime := 0, hitProgress := 0 }

/-- nextMission: advances to the next tone and resets the mission. -/
def nextMission (s : Station) : Station :=
  resetMission { s with currentToneIndex := s.currentToneIndex + 1 }

/-- enterEndlessMode: enters the terminal endless mode.  Note that it does
not call updateHitProgress, so the exposed ratio is left as it was. -/
def enterEndlessMode (s : Station) : Station :=
  { s with endlessMode := true, missionCompleted := false,
           isHittingTarget := false, hitDuration := 0, hitStartTime := 0 }

/-- Firing of the delayed transition scheduled by completeMission. -/
def firePending (s : Station) : Station :=
  match s.pending with
  | none => s
  | some PendingAdvance.toEndless => enterEndlessMode { s with pending := none }
  | some PendingAdvance.toNext => nextMission { s with pending := none }

/-- The mission state as described by the specification, derived from the
instance fields. -/
inductive MState where
  | Idle
  | HittingTarget
  | Completed
  | EndlessMode
deriving DecidableEq

/-- Derived specification-level state of the controller. -/
def missionState (s : Station) : MState :=
  if s.endlessMode then MState.EndlessMode
  else if s.missionCompleted then MState.Completed
  else if s.isHittingTarget then MState.HittingTarget
  else MState.Idle

/-- One step of the maximum scan in findDominantFrequency.  The
accumulator pairs the best index so far with the best magnitude so far;
`none` stands for the initial -Infinity, which any finite magnitude
beats. -/
def scanStep (bins : List ℚ) (acc : ℕ × Option ℚ) (i : ℕ) : ℕ × Option ℚ :=
  match acc.2 with
  | none => (i, some (bins.getD i 0))
  | some m => if m < bins.getD i 0 then (i, some (bins.getD i 0)) else acc

/-- Start of the bin search range: Math.floor of 100 Hz mapped to a bin
index (frequencies below 100 Hz are skipped to avoid noise). -/
def searchLo (bins : List ℚ) (sr : ℚ) : ℕ :=
  (⌊100 * (bins.length : ℚ) / (sr / 2)⌋).toNat

/-- End of the bin search range, clipped to the array length as in the
loop bound of the source. -/
def searchHi (bins : List ℚ) (sr : ℚ) : ℕ :=
  min (⌊1000 * (bins.length : ℚ) / (sr / 2)⌋).toNat bins.length

/-- findDominantFrequency: scans the magnitude bins between the 100 Hz
and 1000 Hz indices for the maximum, and converts the winning bin index
to a frequency when the maximum exceeds -60 dB; otherwise returns 0
("no signal"). -/
def findDominantFrequency (bins : List ℚ) (sr : ℚ) : ℚ :=
  let lo := searchLo bins sr
  let hi := searchHi bins sr
  let r := (List.range' lo (hi - lo)).foldl (scanStep bins) (0, none)
  match r.2 with
  | some m => if -60 < m then ((r.1 : ℚ) * sr) / (2 * (bins.length : ℚ)) else 0
  | none => 0

/-- Ingestion of one analysis frame given the raw magnitude bins: the
dominant-frequency estimate feeds detectTone, exactly as in
visualizationLoop. -/
def ingestFrame (s : Station) (now : ℤ) (bins : List ℚ) (sr : ℚ) : Station :=
  detectTone s now (findDominantFrequency bins sr)

/-- States reachable from the constructor state through the operations of
the station: starting and stopping the recording, ingesting a
dominant-frequency sample, and the firing of a scheduled delayed
transition. -/
inductive Reachable : Station → Prop where
  | init : Reachable initStation
  | start {s : Station} : Reachable s → Reachable (startRecording s)
  | stop {s : Station} : Reachable s → Reachable (stopRecording s)
  | ingest {s : Station} : Reachable s → ∀ (now : ℤ) (f : ℚ), Reachable (detectTone s now f)
  | fire {s : Station} : Reachable s → Reachable (firePending s)

/-- Folding a stream of (timestamp, dominant frequency) samples through
detectTone, in arrival order. -/
def runSamples (s : Station) (samples : List (ℤ × ℚ)) : Station :=
  samples.foldl (fun st p => detectTone st p.1 p.2) s

/-- The in-place hold-window extension performed by handleTargetHit on an
accepted sample while already hitting: hitDuration becomes now minus
hitStartTime and that ratio is pushed to the presentation layer. -/
def extendHit (r : Station) (t : ℤ) : Station :=
  { r with hitDuration := t - r.hitStartTime,
           hitProgress := ((t - r.hitStartTime : ℤ) : ℚ) / (requiredHitDuration : ℚ) }

/-- A concrete session trace: each of the three target tones is held for
1500 ms and each scheduled delayed transition fires, ending in endless
mode.  Used to exhibit a reachable endless-mode state. -/
def trace1 : Station := detectTone initStation 0 261

/-- Second sample of the trace: completes the first mission (C, 261.63 Hz). -/
def trace2 : Station := detectTone trace1 1500 261

/-- The delayed advance to the second target fires. -/
def trace3 : Station := firePending trace2

/-- First sample on the second target (F#, 369.99 Hz). -/
def trace4 : Station := detectTone trace3 2000 370

/-- Second sample on the second target: completes the second mission. -/
def trace5 : Station := detectTone trace4 3500 370

/-- The delayed advance to the third target fires. -/
def trace6 : Station := firePending trace5

/-- First sample on the third target (A, 440 Hz). -/
def trace7 : Station := detectTone trace6 4000 440

/-- Second sample on the third target: completes the third mission and
schedules the endless-mode transition. -/
def trace8 : Station := detectTone trace7 5500 440

/-- The scheduled endless-mode transition fires: the session is now in
endless mode. -/
def endlessTraceState : Station := firePending trace8

/-- A concrete magnitude array (8 bins) used to exercise the estimator:
with a 1000 Hz sample rate the searched bins are 1 to 7 and the loudest
is bin 3 at -10 dB. -/
def bins8 : List ℚ := [-100, -50, -80, -10, -20, -100, -100, -100]

/-- Concrete state used in examples below: third mission (440 Hz target)
active, nothing hit yet. -/
def stationA : Station := { initStation with currentToneIndex := 2 }

/-- Concrete state: third mission with the hit window open since t = 0. -/
def stationAHit : Station := { initStation with currentToneIndex := 2, isHittingTarget := true }

/-! ## Helper lemmas -/

/-- Characterisation of the derived HittingTarget state. -/
lemma missionState_eq_hitting (s : Station) :
    missionState s = MState.HittingTarget ↔
      s.endlessMode = false ∧ s.missionCompleted = false ∧ s.isHittingTarget = true := by
  cases he : s.endlessMode <;> cases hm : s.missionCompleted <;>
    cases hh : s.isHittingTarget <;> simp [missionState, he, hm, hh]

/-- Characterisation of the derived Idle state. -/
lemma missionState_eq_idle (s : Station) :
    missionState s = MState.Idle ↔
      s.endlessMode = false ∧ s.missionCompleted = false ∧ s.isHittingTarget = false := by
  cases he : s.endlessMode <;> cases hm : s.missionCompleted <;>
    cases hh : s.isHittingTarget <;> simp [missionState, he, hm, hh]

/-- completeMission touches only missionCompleted, completedTones and
pending. -/
lemma completeMission_frame (s : Station) :
    (completeMission s).hitProgress = s.hitProgress ∧
    (completeMission s).endlessMode = s.endlessMode ∧
    (completeMission s).currentToneIndex = s.currentToneIndex ∧
    (completeMission s).isHittingTarget = s.isHittingTarget ∧
    (completeMission s).hitStartTime = s.hitStartTime ∧
    (completeMission s).hitDuration = s.hitDuration ∧
    (completeMission s).isRecording = s.isRecording := by
  simp only [completeMission]
  split_ifs <;> simp

/-- completeMission on a not-yet-completed mission marks it completed and
increments the counter by exactly one. -/
lemma completeMission_of_not_completed (s : Station) (h : s.missionCompleted = false) :
    (completeMission s).missionCompleted = true ∧
    (completeMission s).completedTones = s.completedTones + 1 := by
  simp only [completeMission, h]
  split_ifs <;> simp_all

/-- A no-signal (non-positive) dominant-frequency value leaves the state
untouched, because detectTone only acts when the estimate is positive. -/
lemma detectTone_nonpos (s : Station) (now : ℤ) (f : ℚ) (h : f ≤ 0) :
    detectTone s now f = s := by
  simp [detectTone, not_lt.mpr h]

/-- detectTone never changes endlessMode. -/
lemma detectTone_endlessMode (s : Station) (now : ℤ) (f : ℚ) :
    (detectTone s now f).endlessMode = s.endlessMode := by
  simp only [detectTone, handleTargetHit]
  split_ifs <;> simp [completeMission_frame]

/-- In endless mode detectTone is the identity. -/
lemma detectTone_of_endless (s : Station) (now : ℤ) (f : ℚ) (h : s.endlessMode = true) :
    detectTone s now f = s := by
  simp [detectTone, h]

/-- Characterisation of the derived Completed state. -/
lemma missionState_eq_completed (s : Station) :
    missionState s = MState.Completed ↔
      s.endlessMode = false ∧ s.missionCompleted = true := by
  cases he : s.endlessMode <;> cases hm : s.missionCompleted <;>
    cases hh : s.isHittingTarget <;> simp [missionState, he, hm, hh]

/-- Completing a not-yet-completed, not-endless mission lands in the
derived Completed state. -/
lemma missionState_completeMission (r : Station) (hm : r.missionCompleted = false)
    (he : r.endlessMode = false) :
    missionState (completeMission r) = MState.Completed := by
  rw [missionState_eq_completed]
  exact ⟨(completeMission_frame r).2.1.trans he, (completeMission_of_not_completed r hm).1⟩

/-- completeMission changes completedTones by zero or one. -/
lemma completeMission_completedTones (s : Station) :
    (completeMission s).completedTones = s.completedTones ∨
    (completeMission s).completedTones = s.completedTones + 1 := by
  simp only [completeMission]
  split_ifs <;> simp

/-- detectTone changes completedTones by zero or one. -/
lemma detectTone_completedTones (s : Station) (now : ℤ) (f : ℚ) :
    (detectTone s now f).completedTones = s.completedTones ∨
    (detectTone s now f).completedTones = s.completedTones + 1 := by
  simp only [detectTone, handleTargetHit]
  split_ifs <;>
    first
      | exact Or.inl rfl
      | simpa using completeMission_completedTones _

/-- Shape of detectTone on an accepted sample while HittingTarget: the
hold window is extended in place and completeMission runs exactly when
the duration reaches the requirement. -/
lemma detectTone_inTol_hitting (s : Station) (now : ℤ) (f : ℚ)
    (he : s.endlessMode = false) (hm : s.missionCompleted = false)
    (hh : s.isHittingTarget = true) (hf : 0 < f)
    (hin : |f - (getCurrentTarget s).frequency| ≤ tolerance) :
    detectTone s now f =
      (if requiredHitDuration ≤ now - s.hitStartTime then
        completeMission (extendHit s now)
      else
        extendHit s now) := by
  have hck : checkTargetHit s f = true := by simp [checkTargetHit, he, hin]
  simp [detectTone, hf, he, handleTargetHit, hck, hh, hm, extendHit]

/-! ## Claim C5 -/

/-- C5: outside EndlessMode, a valid frequency sample classifies as a hit
if and only if its absolute distance to the current target frequency is
at most the tolerance of 40 Hz; the comparison is inclusive, so a
distance of exactly 40 counts as a hit. -/
theorem checkTargetHit_iff_within_tolerance (s : Station) (f : ℚ)
    (h : s.endlessMode = false) :
    checkTargetHit s f = true ↔ |f - (getCurrentTarget s).frequency| ≤ tolerance := by
  simp [checkTargetHit, h]

/-- Witness for C5 at the exact tolerance boundary: 480 Hz against the
440 Hz target has distance exactly 40 and counts as a hit. -/
theorem checkTargetHit_iff_within_tolerance_witness :
    checkTargetHit { initStation with currentToneIndex := 2 } 480 = true :=
  (checkTargetHit_iff_within_tolerance { initStation with currentToneIndex := 2 } 480
      rfl).mpr
    (by norm_num [getCurrentTarget, targetTones, tolerance, initStation])

/-! ## Claim C1 -/

/-- C1 counterexample: with the controller in HittingTarget (target
440 Hz, hit opened at t = 0 by a 435 Hz sample), a no-signal sample
(estimate 0) at t = 500 leaves the state completely unchanged: the
controller stays in HittingTarget instead of transitioning to Idle. -/
theorem noSignal_keeps_hitting_cex :
    detectTone (detectTone { initStation with currentToneIndex := 2 } 0 435) 500 0 =
      detectTone { initStation with currentToneIndex := 2 } 0 435 ∧
    missionState (detectTone { initStation with currentToneIndex := 2 } 0 435) =
      MState.HittingTarget := by
  constructor
  · simp [detectTone]
  · norm_num [detectTone, checkTargetHit, handleTargetHit, completeMission,
      getCurrentTarget, targetTones, tolerance, requiredHitDuration, initStation,
      missionState]

/-- C1 amended: a sample whose dominant-frequency estimate is absent
(the no-signal value 0, or any non-positive value) is ignored entirely by
detectTone: no target logic runs, the controller stays in its current
state, and the hold window is preserved rather than reset. -/
theorem noSignal_sample_ignored (s : Station) (now : ℤ) (f : ℚ) (h : f ≤ 0) :
    detectTone s now f = s :=
  detectTone_nonpos s now f h

/-- Witness for the amended C1. -/
theorem noSignal_sample_ignored_witness :
    detectTone initStation 100 0 = initStation :=
  noSignal_sample_ignored initStation 100 0 (by norm_num)

/-! ## Claim C2 -/

/-- C2: while the controller is in HittingTarget, a valid sample outside
tolerance of the current target resets the hold window (hitDuration and
the exposed progress become 0), clears isHittingTarget, and returns the
derived state to Idle; no other field changes. -/
theorem outOfTolerance_resets_to_idle (s : Station) (now : ℤ) (f : ℚ)
    (hs : missionState s = MState.HittingTarget) (hf : 0 < f)
    (hout : ¬ |f - (getCurrentTarget s).frequency| ≤ tolerance) :
    detectTone s now f =
      { s with isHittingTarget := false, hitDuration := 0, hitProgress := 0 } ∧
    missionState (detectTone s now f) = MState.Idle := by
  obtain ⟨he, hm, hh⟩ := (missionState_eq_hitting s).mp hs
  have hck : checkTargetHit s f = false := by simp [checkTargetHit, he, hout]
  have h1 : detectTone s now f =
      { s with isHittingTarget := false, hitDuration := 0, hitProgress := 0 } := by
    simp [detectTone, hf, he, handleTargetHit, hck, hh]
  refine ⟨h1, ?_⟩
  rw [h1, missionState_eq_idle]
  simp [he, hm]

/-- Witness for C2: from HittingTarget on the 440 Hz target, an 800 Hz
sample resets the hold window and returns the controller to Idle. -/
theorem outOfTolerance_resets_to_idle_witness :
    detectTone { initStation with currentToneIndex := 2, isHittingTarget := true } 100 800 =
      { initStation with currentToneIndex := 2, isHittingTarget := false,
                          hitDuration := 0, hitProgress := 0 } ∧
    missionState
        (detectTone { initStation with currentToneIndex := 2, isHittingTarget := true }
          100 800) = MState.Idle :=
  outOfTolerance_resets_to_idle
    { initStation with currentToneIndex := 2, isHittingTarget := true } 100 800
    (by simp [missionState, initStation])
    (by norm_num)
    (by norm_num [getCurrentTarget, targetTones, tolerance, initStation])

/-! ## Claim C10 -/

/-- C10: stopRecording resets the hold window (isHittingTarget,
hitDuration, hitStartTime, and the exposed progress) exactly when the
mission is neither completed nor in endless mode; when missionCompleted
or endlessMode holds, only the recording flag changes and every
mission-progress field (completedTones, currentToneIndex,
missionCompleted, endlessMode) is left untouched. -/
theorem stopRecording_frame (s : Station) :
    (s.missionCompleted = false ∧ s.endlessMode = false →
      stopRecording s =
        { s with isRecording := false, isHittingTarget := false,
                 hitDuration := 0, hitStartTime := 0, hitProgress := 0 }) ∧
    (s.missionCompleted = true ∨ s.endlessMode = true →
      stopRecording s = { s with isRecording := false }) := by
  constructor
  · rintro ⟨hm, he⟩
    simp [stopRecording, resetMissionState, hm, he]
  · rintro (hm | he)
    · simp [stopRecording, resetMissionState, hm]
    · simp [stopRecording, resetMissionState, he]

/-- Witness for C10: stopping while missionCompleted only clears the
recording flag; stopping an uncompleted mission also resets the hold
window. -/
theorem stopRecording_frame_witness :
    stopRecording { initStation with missionCompleted := true, isHittingTarget := true } =
      { initStation with missionCompleted := true, isHittingTarget := true,
                          isRecording := false } ∧
    stopRecording { initStation with isHittingTarget := true, hitStartTime := 7 } =
      { initStation with isRecording := false, isHittingTarget := false,
                          hitDuration := 0, hitStartTime := 0, hitProgress := 0 } :=
  ⟨(stopRecording_frame
        { initStation with missionCompleted := true, isHittingTarget := true }).2
      (Or.inl rfl),
    (stopRecording_frame
        { initStation with isHittingTarget := true, hitStartTime := 7 }).1 ⟨rfl, rfl⟩⟩

/-! ## Claim C8 -/

/-- C8 counterexample: with the hit window opened at t = 0 on the 440 Hz
target, the in-tolerance sample at t = 1600 pushes the unclamped ratio
1600/1500 > 1 to the presentation layer, and it does so while completing
the mission, so the exposed ratio is simultaneously above 1 and nonzero
in a state that is not HittingTarget. -/
theorem holdProgress_exceeds_one_cex :
    1 < (detectTone stationAHit 1600 435).hitProgress ∧
    missionState (detectTone stationAHit 1600 435) ≠ MState.HittingTarget ∧
    (detectTone stationAHit 1600 435).hitProgress ≠ 0 := by
  refine ⟨?_, ?_, ?_⟩ <;>
    (norm_num [detectTone, checkTargetHit, handleTargetHit, completeMission,
      getCurrentTarget, targetTones, tolerance, requiredHitDuration, initStation,
      stationAHit, missionState]
     try decide)

/-- C8 amended: the ratio exposed through updateHitProgress is
hitDuration / requiredHitDuration without clamping, so it exceeds 1
whenever an accepted sample arrives more than 1500 ms after the hit
started; an out-of-tolerance sample while hitting resets it to 0. -/
theorem holdProgress_unclamped (s : Station) (now : ℤ) (f g : ℚ)
    (hs : missionState s = MState.HittingTarget) (hf : 0 < f)
    (hin : |f - (getCurrentTarget s).frequency| ≤ tolerance) (hg : 0 < g)
    (hout : ¬ |g - (getCurrentTarget s).frequency| ≤ tolerance) :
    (detectTone s now f).hitProgress =
      ((now - s.hitStartTime : ℤ) : ℚ) / (requiredHitDuration : ℚ) ∧
    (detectTone s now g).hitProgress = 0 := by
  obtain ⟨he, hm, hh⟩ := (missionState_eq_hitting s).mp hs
  have hckg : checkTargetHit s g = false := by simp [checkTargetHit, he, hout]
  constructor
  · rw [detectTone_inTol_hitting s now f he hm hh hf hin]
    split_ifs with hd
    · simpa [extendHit] using (completeMission_frame (extendHit s now)).1
    · simp [extendHit]
  · simp [detectTone, hg, he, handleTargetHit, hckg, hh]

/-- Witness for the amended C8: at t = 1600 the exposed ratio is exactly
1600/1500, and an 800 Hz sample resets it to 0. -/
theorem holdProgress_unclamped_witness :
    (detectTone stationAHit 1600 435).hitProgress =
      ((1600 - stationAHit.hitStartTime : ℤ) : ℚ) / (requiredHitDuration : ℚ) ∧
    (detectTone stationAHit 1600 800).hitProgress = 0 :=
  holdProgress_unclamped stationAHit 1600 435 800
    (by simp [missionState, initStation, stationAHit])
    (by norm_num)
    (by norm_num [getCurrentTarget, targetTones, tolerance, initStation, stationAHit])
    (by norm_num)
    (by norm_num [getCurrentTarget, targetTones, tolerance, initStation, stationAHit])

/-! ## Claim C3 -/

/-- C3 counterexample to the stated timing: in scenario A (440 Hz target,
in-tolerance samples at t = 0 and t = 1600 only), the controller is not
Completed after the t = 0 sample — and no controller invocation happens
between the two samples, so it is not Completed at t = 1500 — while the
t = 1600 sample does complete the mission. -/
theorem scenarioA_completion_time_cex :
    missionState (detectTone stationA 0 435) ≠ MState.Completed ∧
    missionState (detectTone (detectTone stationA 0 435) 1600 435) =
      MState.Completed := by
  constructor
  · norm_num [detectTone, checkTargetHit, handleTargetHit, completeMission,
      getCurrentTarget, targetTones, tolerance, requiredHitDuration, initStation,
      stationA, missionState]
    decide
  · norm_num [detectTone, checkTargetHit, handleTargetHit, completeMission,
      getCurrentTarget, targetTones, tolerance, requiredHitDuration, initStation,
      stationA, missionState]

/-- C3 amended: completion is detected at sample-processing time, not at
the instant the threshold elapses: from HittingTarget, an accepted sample
at time `now` yields Completed exactly when now - hitStartTime has
reached 1500 ms, and then completedTones is incremented; in scenario A
(samples at t = 0 and t = 1600) this means Completed fires at the t = 1600
sample, not by t = 1500. -/
theorem completion_at_first_late_sample (s : Station) (now : ℤ) (f : ℚ)
    (hs : missionState s = MState.HittingTarget) (hf : 0 < f)
    (hin : |f - (getCurrentTarget s).frequency| ≤ tolerance) :
    (missionState (detectTone s now f) = MState.Completed ↔
      requiredHitDuration ≤ now - s.hitStartTime) ∧
    (requiredHitDuration ≤ now - s.hitStartTime →
      (detectTone s now f).completedTones = s.completedTones + 1) := by
  obtain ⟨he, hm, hh⟩ := (missionState_eq_hitting s).mp hs
  rw [detectTone_inTol_hitting s now f he hm hh hf hin]
  split_ifs with hd
  · refine ⟨?_, fun _ => ?_⟩
    · rw [missionState_completeMission (extendHit s now) (by simp [extendHit, hm])
        (by simp [extendHit, he])]
      simp [hd]
    · simpa [extendHit] using
        (completeMission_of_not_completed (extendHit s now) (by simp [extendHit, hm])).2
  · refine ⟨?_, fun h => absurd h hd⟩
    simp [hd, missionState_eq_completed, hm, extendHit]

/-- Witness for the amended C3: the t = 1600 sample completes scenario A
and increments the counter. -/
theorem completion_at_first_late_sample_witness :
    (missionState (detectTone stationAHit 1600 435) = MState.Completed ↔
      requiredHitDuration ≤ 1600 - stationAHit.hitStartTime) ∧
    (requiredHitDuration ≤ 1600 - stationAHit.hitStartTime →
      (detectTone stationAHit 1600 435).completedTones =
        stationAHit.completedTones + 1) :=
  completion_at_first_late_sample stationAHit 1600 435
    (by simp [missionState, initStation, stationAHit])
    (by norm_num)
    (by norm_num [getCurrentTarget, targetTones, tolerance, initStation, stationAHit])

/-! ## Claim C6 -/

/-- C6: completedTones only ever increases, by at most one per ingested
sample and by exactly one per completeMission; with fewer than 3 tones
completed beforehand, completeMission schedules the endless-mode
transition exactly when the new count equals totalTargets = 3 and
otherwise schedules the advance to the next target; firing the scheduled
transition enters endless mode respectively advances the target index,
and neither the delayed transition nor stopRecording changes the
counter. -/
theorem completedTones_monotone_endless_trigger (s : Station) (now : ℤ) (f : ℚ)
    (hm : s.missionCompleted = false) (hlt : s.completedTones < 3) :
    targetTones.length = 3 ∧
    s.completedTones ≤ (detectTone s now f).completedTones ∧
    (detectTone s now f).completedTones ≤ s.completedTones + 1 ∧
    (completeMission s).completedTones = s.completedTones + 1 ∧
    ((completeMission s).pending = some PendingAdvance.toEndless ↔
      (completeMission s).completedTones = 3) ∧
    ((completeMission s).completedTones < 3 →
      (completeMission s).pending = some PendingAdvance.toNext) ∧
    (firePending { s with pending := some PendingAdvance.toEndless }).endlessMode = true ∧
    (firePending { s with pending := some PendingAdvance.toNext }).currentToneIndex =
      s.currentToneIndex + 1 ∧
    (firePending s).completedTones = s.completedTones ∧
    (stopRecording s).completedTones = s.completedTones := by
  have hmono : s.completedTones ≤ (detectTone s now f).completedTones ∧
      (detectTone s now f).completedTones ≤ s.completedTones + 1 := by
    rcases detectTone_completedTones s now f with h | h <;> omega
  have hcm : (completeMission s).completedTones = s.completedTones + 1 :=
    (completeMission_of_not_completed s hm).2
  have hpend : ((completeMission s).pending = some PendingAdvance.toEndless ↔
      (completeMission s).completedTones = 3) ∧
      ((completeMission s).completedTones < 3 →
        (completeMission s).pending = some PendingAdvance.toNext) := by
    simp only [completeMission, hm, Bool.false_eq_true, if_false, targetTones,
      List.length_cons, List.length_nil]
    split_ifs with h3 <;> simp <;> omega
  have hfc : (firePending s).completedTones = s.completedTones := by
    cases hp : s.pending with
    | none => simp [firePending, hp]
    | some a =>
        cases a <;>
          simp [firePending, hp, enterEndlessMode, nextMission, resetMission]
  refine ⟨rfl, hmono.1, hmono.2, hcm, hpend.1, hpend.2, ?_, ?_, hfc, ?_⟩
  · simp [firePending, enterEndlessMode]
  · simp [firePending, nextMission, resetMission]
  · simp only [stopRecording, resetMissionState]
    split_ifs <;> simp

/-- Witness for C6 at the constructor state. -/
theorem completedTones_monotone_endless_trigger_witness :
    targetTones.length = 3 ∧
    initStation.completedTones ≤ (detectTone initStation 0 261).completedTones ∧
    (detectTone initStation 0 261).completedTones ≤ initStation.completedTones + 1 ∧
    (completeMission initStation).completedTones = initStation.completedTones + 1 ∧
    ((completeMission initStation).pending = some PendingAdvance.toEndless ↔
      (completeMission initStation).completedTones = 3) ∧
    ((completeMission initStation).completedTones < 3 →
      (completeMission initStation).pending = some PendingAdvance.toNext) ∧
    (firePending { initStation with
        pending := some PendingAdvance.toEndless }).endlessMode = true ∧
    (firePending { initStation with
        pending := some PendingAdvance.toNext }).currentToneIndex =
      initStation.currentToneIndex + 1 ∧
    (firePending initStation).completedTones = initStation.completedTones ∧
    (stopRecording initStation).completedTones = initStation.completedTones :=
  completedTones_monotone_endless_trigger initStation 0 261 rfl
    (by norm_num [initStation])

/-! ## Claim C7 -/

/-- stopRecording changes neither endlessMode nor pending. -/
lemma stopRecording_endless_pending (s : Station) :
    (stopRecording s).endlessMode = s.endlessMode ∧
    (stopRecording s).pending = s.pending := by
  simp only [stopRecording, resetMissionState]
  split_ifs <;> simp

/-- Reachability invariant: in endless mode no delayed transition is
pending (the only operation that schedules one, completeMission, never
runs in endless mode, and entering endless mode consumes the pending
transition). -/
lemma endless_pending_invariant {s : Station} (hr : Reachable s) :
    s.endlessMode = true → s.pending = none := by
  induction hr with
  | init => intro h; cases h
  | start hr ih => exact ih
  | stop hr ih =>
      intro h
      rw [(stopRecording_endless_pending _).2]
      exact ih ((stopRecording_endless_pending _).1 ▸ h)
  | ingest hr now f ih =>
      rename_i s'
      intro h
      by_cases he : s'.endlessMode = true
      · rw [detectTone_of_endless s' now f he]
        exact ih he
      · rw [detectTone_endlessMode] at h
        exact absurd h he
  | fire hr ih =>
      rename_i s'
      intro h
      cases hp : s'.pending with
      | none => simp [firePending, hp]
      | some a =>
          cases a <;>
            simp [firePending, hp, enterEndlessMode, nextMission, resetMission]

/-- C7: endless mode is terminal.  In any reachable endless-mode state,
ingesting a sample is the identity (no classification, hold accumulation,
completion or target progression), the delayed-transition slot is empty
so nothing can fire, and stopping the recording changes only the
recording flag — no reachable operation leaves endless mode. -/
theorem endlessMode_terminal (s : Station) (hr : Reachable s)
    (he : s.endlessMode = true) :
    (∀ (now : ℤ) (f : ℚ), detectTone s now f = s) ∧
    firePending s = s ∧
    stopRecording s = { s with isRecording := false } := by
  refine ⟨fun now f => detectTone_of_endless s now f he, ?_, ?_⟩
  · simp [firePending, endless_pending_invariant hr he]
  · simp [stopRecording, he]

/-- Witness for C7: the concrete trace completing all three targets ends
in a reachable endless-mode state, and there samples and operations no
longer change anything. -/
theorem endlessMode_terminal_witness :
    detectTone endlessTraceState 6000 300 = endlessTraceState ∧
    firePending endlessTraceState = endlessTraceState ∧
    stopRecording endlessTraceState =
      { endlessTraceState with isRecording := false } := by
  have h1 : Reachable trace1 := Reachable.ingest Reachable.init 0 261
  have h2 : Reachable trace2 := Reachable.ingest h1 1500 261
  have h3 : Reachable trace3 := Reachable.fire h2
  have h4 : Reachable trace4 := Reachable.ingest h3 2000 370
  have h5 : Reachable trace5 := Reachable.ingest h4 3500 370
  have h6 : Reachable trace6 := Reachable.fire h5
  have h7 : Reachable trace7 := Reachable.ingest h6 4000 440
  have h8 : Reachable trace8 := Reachable.ingest h7 5500 440
  have h9 : Reachable endlessTraceState := Reachable.fire h8
  have hend : endlessTraceState.endlessMode = true := by
    norm_num [endlessTraceState, trace8, trace7, trace6, trace5, trace4, trace3,
      trace2, trace1, detectTone, checkTargetHit, handleTargetHit, completeMission,
      firePending, enterEndlessMode, nextMission, resetMission, getCurrentTarget,
      targetTones, tolerance, requiredHitDuration, initStation, abs_le]
  have h := endlessMode_terminal endlessTraceState h9 hend
  exact ⟨h.1 6000 300, h.2.1, h.2.2⟩

/-! ## Claim C4 -/

/-- The current target is determined by the tone index. -/
lemma getCurrentTarget_of_index (s : Station) (i : ℕ) (h : s.currentToneIndex = i) :
    getCurrentTarget s = targetTones.getD i ⟨"", 0, ""⟩ := by
  simp [getCurrentTarget, h]

/-- Once the mission is completed (and not in endless mode), further
samples never change completion, the counter, the tone index, the hit
start time, or the mode: completeMission is guarded and the delayed
transition has not fired yet. -/
lemma detectTone_of_completed (r : Station) (t : ℤ) (f : ℚ)
    (he : r.endlessMode = false) (hm : r.missionCompleted = true) :
    (detectTone r t f).missionCompleted = true ∧
    (detectTone r t f).completedTones = r.completedTones ∧
    (detectTone r t f).currentToneIndex = r.currentToneIndex ∧
    (detectTone r t f).hitStartTime = r.hitStartTime ∧
    (detectTone r t f).endlessMode = false := by
  simp only [detectTone, handleTargetHit, he, hm]
  split_ifs <;> simp_all

/-- An accepted sample from Idle opens the hit window at the sample
timestamp with zero accumulated duration. -/
lemma detectTone_start_hit (s : Station) (t : ℤ) (f : ℚ)
    (he : s.endlessMode = false) (hm : s.missionCompleted = false)
    (hh : s.isHittingTarget = false) (hf : 0 < f)
    (hin : |f - (getCurrentTarget s).frequency| ≤ tolerance) :
    detectTone s t f =
      { s with isHittingTarget := true, hitStartTime := t,
               hitDuration := 0, hitProgress := 0 } := by
  have hck : checkTargetHit s f = true := by simp [checkTargetHit, he, hin]
  simp [detectTone, hf, he, handleTargetHit, hck, hm, hh, requiredHitDuration,
    sub_self]

/-- Fold invariant for a run of accepted samples: starting from a state
whose hit window is open since t0 (or that has just completed the
mission, with the counter already incremented), the mode, tone index and
hit start time never change, the counter moves from c to c + 1 exactly at
completion, completion is stable, and any sample 1500 ms or more past t0
forces completion. -/
lemma runSamples_inTol_invariant (i : ℕ) (t0 : ℤ) (c : ℕ) :
    ∀ (samples : List (ℤ × ℚ)) (r : Station),
      r.endlessMode = false → r.currentToneIndex = i → r.hitStartTime = t0 →
      ((r.missionCompleted = false ∧ r.isHittingTarget = true ∧
          r.completedTones = c) ∨
        (r.missionCompleted = true ∧ r.completedTones = c + 1)) →
      (∀ p ∈ samples, 0 < p.2 ∧
        |p.2 - (targetTones.getD i ⟨"", 0, ""⟩).frequency| ≤ tolerance) →
      (runSamples r samples).endlessMode = false ∧
      (runSamples r samples).currentToneIndex = i ∧
      (runSamples r samples).hitStartTime = t0 ∧
      (((runSamples r samples).missionCompleted = false ∧
          (runSamples r samples).isHittingTarget = true ∧
          (runSamples r samples).completedTones = c) ∨
        ((runSamples r samples).missionCompleted = true ∧
          (runSamples r samples).completedTones = c + 1)) ∧
      (r.missionCompleted = true → (runSamples r samples).missionCompleted = true) ∧
      ((∃ p ∈ samples, t0 + requiredHitDuration ≤ p.1) →
        (runSamples r samples).missionCompleted = true) := by
  intro samples
  induction samples with
  | nil =>
      intro r he hi ht hdisj _
      refine ⟨he, hi, ht, hdisj, fun h => h, fun h => ?_⟩
      rcases h with ⟨p, hp, _⟩
      exact absurd hp (List.not_mem_nil p)
  | cons q rest ih =>
      intro r he hi ht hdisj hsamp
      obtain ⟨hfpos, hfin⟩ := hsamp q (List.mem_cons_self q rest)
      have hrest : ∀ p ∈ rest, 0 < p.2 ∧
          |p.2 - (targetTones.getD i ⟨"", 0, ""⟩).frequency| ≤ tolerance :=
        fun p hp => hsamp p (List.mem_cons_of_mem q hp)
      have hrun : runSamples r (q :: rest) = runSamples (detectTone r q.1 q.2) rest := rfl
      rcases hdisj with ⟨hm, hh, hc⟩ | ⟨hm, hc⟩
      · -- hit window open, mission not yet completed
        rw [hrun, detectTone_inTol_hitting r q.1 q.2 he hm hh hfpos
          (by rw [getCurrentTarget_of_index r i hi]; exact hfin)]
        by_cases hd : requiredHitDuration ≤ q.1 - r.hitStartTime
        · rw [if_pos hd]
          have hBmc : (extendHit r q.1).missionCompleted = false := by
            simpa [extendHit] using hm
          have hfr := completeMission_frame (extendHit r q.1)
          have hcc := completeMission_of_not_completed (extendHit r q.1) hBmc
          have H := ih (completeMission (extendHit r q.1))
            (hfr.2.1.trans (by simpa [extendHit] using he))
            (hfr.2.2.1.trans (by simpa [extendHit] using hi))
            (hfr.2.2.2.2.1.trans (by simpa [extendHit] using ht))
            (Or.inr ⟨hcc.1, hcc.2.trans (by simp [extendHit, hc])⟩)
            hrest
          exact ⟨H.1, H.2.1, H.2.2.1, H.2.2.2.1, fun _ => H.2.2.2.2.1 hcc.1,
            fun _ => H.2.2.2.2.1 hcc.1⟩
        · rw [if_neg hd]
          have H := ih (extendHit r q.1)
            (by simpa [extendHit] using he) (by simpa [extendHit] using hi)
            (by simpa [extendHit] using ht)
            (Or.inl ⟨by simpa [extendHit] using hm, by simpa [extendHit] using hh,
              by simpa [extendHit] using hc⟩)
            hrest
          refine ⟨H.1, H.2.1, H.2.2.1, H.2.2.2.1,
            fun hcon => absurd hcon (by simp [hm]), fun hex => ?_⟩
          rcases hex with ⟨p, hp, hpt⟩
          rcases List.mem_cons.mp hp with rfl | hp'
          · exact absurd hpt (by rw [ht] at hd; omega)
          · exact H.2.2.2.2.2 ⟨p, hp', hpt⟩
      · -- mission already completed: samples are inert for completion
        rw [hrun]
        obtain ⟨h'm, h'c, h'i, h't, h'e⟩ := detectTone_of_completed r q.1 q.2 he hm
        have H := ih (detectTone r q.1 q.2) h'e (h'i.trans hi) (h't.trans ht)
          (Or.inr ⟨h'm, h'c.trans hc⟩) hrest
        exact ⟨H.1, H.2.1, H.2.2.1, H.2.2.2.1, fun _ => H.2.2.2.2.1 h'm,
          fun _ => H.2.2.2.2.1 h'm⟩

/-- C4: any sample stream that stays within tolerance of the current
target and spans at least 1500 ms past its first timestamp completes the
mission exactly once: the final state is Completed, completedTones grows
by exactly one however many further in-tolerance samples follow, and the
tone index does not move until the delayed transition fires. -/
theorem held_within_tolerance_completes_once (s : Station) (t0 : ℤ) (f0 : ℚ)
    (rest : List (ℤ × ℚ)) (hs : missionState s = MState.Idle)
    (hf0 : 0 < f0) (hin0 : |f0 - (getCurrentTarget s).frequency| ≤ tolerance)
    (hrest : ∀ p ∈ rest, 0 < p.2 ∧
      |p.2 - (getCurrentTarget s).frequency| ≤ tolerance)
    (hlong : ∃ p ∈ rest, t0 + requiredHitDuration ≤ p.1) :
    (runSamples s ((t0, f0) :: rest)).missionCompleted = true ∧
    (runSamples s ((t0, f0) :: rest)).completedTones = s.completedTones + 1 ∧
    (runSamples s ((t0, f0) :: rest)).currentToneIndex = s.currentToneIndex ∧
    missionState (runSamples s ((t0, f0) :: rest)) = MState.Completed := by
  obtain ⟨he, hm, hh⟩ := (missionState_eq_idle s).mp hs
  have hrun : runSamples s ((t0, f0) :: rest) =
      runSamples (detectTone s t0 f0) rest := rfl
  rw [hrun, detectTone_start_hit s t0 f0 he hm hh hf0 hin0]
  have htar : (getCurrentTarget s).frequency =
      (targetTones.getD s.currentToneIndex ⟨"", 0, ""⟩).frequency := by
    rw [getCurrentTarget_of_index s s.currentToneIndex rfl]
  have H := runSamples_inTol_invariant s.currentToneIndex t0 s.completedTones rest
    { s with isHittingTarget := true, hitStartTime := t0,
             hitDuration := 0, hitProgress := 0 }
    (by simpa using he) (by simp) (by simp)
    (Or.inl ⟨by simpa using hm, by simp, by simp⟩)
    (fun p hp => ⟨(hrest p hp).1, htar ▸ (hrest p hp).2⟩)
  have hcomp := H.2.2.2.2.2 hlong
  refine ⟨hcomp, ?_, H.2.1, ?_⟩
  · rcases H.2.2.2.1 with ⟨hnc, _, _⟩ | ⟨_, hct⟩
    · exact absurd hcomp (by simp [hnc])
    · exact hct
  · rw [missionState_eq_completed]
    exact ⟨H.1, hcomp⟩

/-- Witness for C4: the first target (C, 261.63 Hz) held by samples at
t = 0 and t = 1500 completes exactly once. -/
theorem held_within_tolerance_completes_once_witness :
    (runSamples initStation [(0, 261), (1500, 261)]).missionCompleted = true ∧
    (runSamples initStation [(0, 261), (1500, 261)]).completedTones =
      initStation.completedTones + 1 ∧
    (runSamples initStation [(0, 261), (1500, 261)]).currentToneIndex =
      initStation.currentToneIndex ∧
    missionState (runSamples initStation [(0, 261), (1500, 261)]) =
      MState.Completed :=
  held_within_tolerance_completes_once initStation 0 261 [(1500, 261)]
    (by simp [missionState, initStation])
    (by norm_num)
    (by norm_num [getCurrentTarget, targetTones, tolerance, initStation, abs_le])
    (by intro p hp
        rcases List.mem_singleton.mp hp with rfl
        norm_num [getCurrentTarget, targetTones, tolerance, initStation, abs_le])
    ⟨(1500, 261), List.mem_singleton.mpr rfl, by norm_num [requiredHitDuration]⟩

/-! ## Claim C9 -/

/-- Invariant of the maximum scan once the accumulator holds a value: the
result holds a value at least as large, attained either at the incoming
accumulator index or inside the scanned range, and bounding every scanned
bin. -/
lemma scanStep_foldl_some (bins : List ℚ) :
    ∀ (k lo j0 : ℕ) (m0 : ℚ),
      ∃ j m, (List.range' lo k).foldl (scanStep bins) (j0, some m0) = (j, some m) ∧
        m0 ≤ m ∧
        ((j = j0 ∧ m = m0) ∨ (lo ≤ j ∧ j < lo + k ∧ bins.getD j 0 = m)) ∧
        (∀ n, lo ≤ n → n < lo + k → bins.getD n 0 ≤ m) := by
  intro k
  induction k with
  | zero =>
      intro lo j0 m0
      exact ⟨j0, m0, rfl, le_refl m0, Or.inl ⟨rfl, rfl⟩,
        fun n h1 h2 => absurd h2 (by omega)⟩
  | succ k ih =>
      intro lo j0 m0
      rw [List.range'_succ, List.foldl_cons]
      by_cases hlt : m0 < bins.getD lo 0
      · have hstep : scanStep bins (j0, some m0) lo = (lo, some (bins.getD lo 0)) := by
          show (if m0 < bins.getD lo 0 then (lo, some (bins.getD lo 0))
            else (j0, some m0)) = (lo, some (bins.getD lo 0))
          rw [if_pos hlt]
        rw [hstep]
        obtain ⟨j, m, heq, hle, hatt, hall⟩ := ih (lo + 1) lo (bins.getD lo 0)
        refine ⟨j, m, heq, le_of_lt (lt_of_lt_of_le hlt hle), ?_, ?_⟩
        · rcases hatt with ⟨hj, hmm⟩ | ⟨h1, h2, h3⟩
          · exact Or.inr ⟨by omega, by omega, by rw [hj, hmm]⟩
          · exact Or.inr ⟨by omega, by omega, h3⟩
        · intro n h1 h2
          rcases eq_or_lt_of_le h1 with rfl | h1'
          · exact hle
          · exact hall n (by omega) (by omega)
      · have hstep : scanStep bins (j0, some m0) lo = (j0, some m0) := by
          show (if m0 < bins.getD lo 0 then (lo, some (bins.getD lo 0))
            else (j0, some m0)) = (j0, some m0)
          rw [if_neg hlt]
        rw [hstep]
        obtain ⟨j, m, heq, hle, hatt, hall⟩ := ih (lo + 1) j0 m0
        refine ⟨j, m, heq, hle, ?_, ?_⟩
        · rcases hatt with h | ⟨h1, h2, h3⟩
          · exact Or.inl h
          · exact Or.inr ⟨by omega, by omega, h3⟩
        · intro n h1 h2
          rcases eq_or_lt_of_le h1 with rfl | h1'
          · exact le_trans (not_lt.mp hlt) hle
          · exact hall n (by omega) (by omega)

/-- The full scan over a nonempty range finds a maximal bin of the range
together with its index. -/
lemma scanStep_foldl (bins : List ℚ) (lo hi : ℕ) (h : lo < hi) :
    ∃ j m, (List.range' lo (hi - lo)).foldl (scanStep bins) (0, none) = (j, some m) ∧
      lo ≤ j ∧ j < hi ∧ bins.getD j 0 = m ∧
      (∀ n, lo ≤ n → n < hi → bins.getD n 0 ≤ m) := by
  obtain ⟨k, hk⟩ : ∃ k, hi - lo = k + 1 := ⟨hi - lo - 1, by omega⟩
  rw [hk, List.range'_succ, List.foldl_cons]
  have hstep : scanStep bins (0, none) lo = (lo, some (bins.getD lo 0)) := rfl
  rw [hstep]
  obtain ⟨j, m, heq, hle, hatt, hall⟩ :=
    scanStep_foldl_some bins k (lo + 1) lo (bins.getD lo 0)
  refine ⟨j, m, heq, ?_, ?_, ?_, ?_⟩
  · rcases hatt with ⟨hj, _⟩ | ⟨h1, _, _⟩ <;> omega
  · rcases hatt with ⟨hj, _⟩ | ⟨_, h2, _⟩ <;> omega
  · rcases hatt with ⟨hj, hmm⟩ | ⟨_, _, h3⟩
    · rw [hj, hmm]
    · exact h3
  · intro n h1 h2
    rcases eq_or_lt_of_le h1 with rfl | h1'
    · exact hle
    · exact hall n (by omega) (by omega)

/-- C9: when the search range (100 Hz to 1000 Hz, clipped to the array)
is nonempty and starts at a positive bin index, findDominantFrequency
returns the no-signal value 0 exactly when every searched magnitude is at
or below the -60 dB energy floor; otherwise it returns the frequency of a
maximal-magnitude bin of the searched range. -/
theorem findDominantFrequency_spec (bins : List ℚ) (sr : ℚ) (hsr : 0 < sr)
    (hlo1 : 1 ≤ searchLo bins sr) (hrange : searchLo bins sr < searchHi bins sr) :
    (findDominantFrequency bins sr = 0 ↔
      ∀ n, searchLo bins sr ≤ n → n < searchHi bins sr → bins.getD n 0 ≤ -60) ∧
    ((∃ n, searchLo bins sr ≤ n ∧ n < searchHi bins sr ∧ -60 < bins.getD n 0) →
      ∃ j, searchLo bins sr ≤ j ∧ j < searchHi bins sr ∧
        (∀ n, searchLo bins sr ≤ n → n < searchHi bins sr →
          bins.getD n 0 ≤ bins.getD j 0) ∧
        findDominantFrequency bins sr =
          ((j : ℚ) * sr) / (2 * (bins.length : ℚ))) := by
  obtain ⟨j, m, heq, hjlo, hjhi, hjm, hall⟩ := scanStep_foldl bins _ _ hrange
  have hlen : searchHi bins sr ≤ bins.length := by
    unfold searchHi
    exact min_le_right _ _
  have hfind : findDominantFrequency bins sr =
      (if -60 < m then ((j : ℚ) * sr) / (2 * (bins.length : ℚ)) else 0) := by
    simp only [findDominantFrequency]
    rw [heq]
  by_cases hm60 : -60 < m
  · have hj1 : 1 ≤ j := le_trans hlo1 hjlo
    have hn1 : 1 ≤ bins.length := by omega
    have hpos : 0 < ((j : ℚ) * sr) / (2 * (bins.length : ℚ)) := by
      apply div_pos
      · have hjq : (1 : ℚ) ≤ (j : ℚ) := by exact_mod_cast hj1
        nlinarith
      · have hnq : (1 : ℚ) ≤ (bins.length : ℚ) := by exact_mod_cast hn1
        linarith
    rw [hfind, if_pos hm60]
    constructor
    · constructor
      · intro h0
        exact absurd h0 (ne_of_gt hpos)
      · intro hallle
        have : m ≤ -60 := hjm ▸ hallle j hjlo hjhi
        exact absurd this (not_le.mpr hm60)
    · intro _
      exact ⟨j, hjlo, hjhi, fun n h1 h2 => hjm ▸ hall n h1 h2, rfl⟩
  · rw [hfind, if_neg hm60]
    constructor
    · constructor
      · intro _ n h1 h2
        exact le_trans (hall n h1 h2) (not_lt.mp hm60)
      · intro _
        rfl
    · rintro ⟨n, h1, h2, h3⟩
      exact absurd (le_trans (hall n h1 h2) (not_lt.mp hm60)) (not_le.mpr h3)

/-- Witness for C9 on a concrete 8-bin array at 1000 Hz sample rate: the
searched range is the bins 1 to 7 and the -10 dB peak in bin 3 wins. -/
theorem findDominantFrequency_spec_witness :
    (findDominantFrequency bins8 1000 = 0 ↔
      ∀ n, searchLo bins8 1000 ≤ n → n < searchHi bins8 1000 →
        bins8.getD n 0 ≤ -60) ∧
    ((∃ n, searchLo bins8 1000 ≤ n ∧ n < searchHi bins8 1000 ∧
        -60 < bins8.getD n 0) →
      ∃ j, searchLo bins8 1000 ≤ j ∧ j < searchHi bins8 1000 ∧
        (∀ n, searchLo bins8 1000 ≤ n → n < searchHi bins8 1000 →
          bins8.getD n 0 ≤ bins8.getD j 0) ∧
        findDominantFrequency bins8 1000 =
          ((j : ℚ) * 1000) / (2 * (bins8.length : ℚ))) :=
  findDominantFrequency_spec bins8 1000 (by norm_num)
    (by norm_num [searchLo, bins8])
    (by norm_num [searchLo, searchHi, bins8])
